import Mathlib

/-!
Verification of the glossary-trainer flashcard application
(`src/glossary-trainer-pwa-github-pages/src/App.tsx`).

Modelling conventions of the shallow embedding:
* JavaScript strings are embedded as `List Char` (`Str`), so that all the
  text processing of the app is fully executable and induction-friendly.
* ISO calendar dates (`YYYY-MM-DD` strings in the source, compared
  lexicographically, which for that fixed-width format coincides with
  chronological order) are embedded as `Nat` day numbers; `addDays` becomes
  `Nat` addition and the string comparison `due <= todayISO()` becomes `≤`.
* Millisecond timestamps (`new Date().toISOString()`) are likewise `Nat`.
* A JavaScript array access out of bounds yields `undefined`, after which
  `d.toISOString()` on the resulting invalid date throws a `RangeError`;
  a computation that can throw is embedded as an `Option`.
* `JSON.parse` is a platform primitive, abstracted as a parameter
  `parse : Str → Option (List Term)` (`none` models a thrown exception,
  matching the `try { ... } catch { return SEED; }` in `load`).
* `Math.random`-based `uid()` is abstracted as an `ids : Nat → Str`
  supply of fresh identifiers, and the ambient clock as explicit
  `today`/`now` arguments.
-/

namespace Glossary

/-- JavaScript strings, embedded as lists of characters. -/
abbrev Str := List Char

/-- `type Rating = "again" | "hard" | "good" | "easy"` (App.tsx line 16). -/
inductive Rating where
  | again
  | hard
  | good
  | easy
deriving DecidableEq, Repr

/-- `type Mode = "review" | "learn" | "browse"` (App.tsx line 17). -/
inductive Mode where
  | review
  | learn
  | browse
deriving DecidableEq, Repr

/-- One history entry `{ d: string; rating: Rating }` (App.tsx line 13);
the ISO timestamp `d` is embedded as a `Nat`. -/
structure HistEntry where
  d : Nat
  rating : Rating
deriving DecidableEq, Repr

/-- The `Term` card record (App.tsx lines 5-14). `due` is the ISO due date
embedded as a day number; `tags?` is embedded as a (possibly empty) list,
matching the `(t.tags || [])` reads in the source; `source?` is `Option`. -/
structure Term where
  id : Str
  term : Str
  definition : Str
  tags : List Str
  source : Option Str
  bucket : Nat
  due : Nat
  history : List HistEntry
deriving DecidableEq, Repr

/-- `const LEITNER_INTERVALS = [0, 1, 3, 7, 14, 30];` (App.tsx line 26). -/
def LEITNER_INTERVALS : List Nat := [0, 1, 3, 7, 14, 30]

/-- The bucket reassignment chain of `scheduleNext` (App.tsx lines 29-33):
`let bucket = term.bucket;` followed by four sequential `if` statements, each
testing the rating and reassigning `bucket` from its current value.
`Math.max`/`Math.min` over the non-negative bucket values coincide with `Nat`
`max`/`min` (for `bucket = 0`, `bucket - 1` is `-1` in JS and `0` in `Nat`,
and both are sent to `1` by `max 1 ·`). -/
def nextBucket (b : Nat) (rating : Rating) : Nat :=
  let b1 := if rating = .again then max 1 (b - 1) else b
  let b2 := if rating = .hard then max 1 b1 else b1
  let b3 := if rating = .good then min 5 (max 1 (b2 + 1)) else b2
  if rating = .easy then min 5 (max 2 (b3 + 2)) else b3

/-- `scheduleNext` (App.tsx lines 28-37).  `LEITNER_INTERVALS[bucket]` out of
range yields `undefined`, making `addDays` produce an invalid date whose
`toISOString()` throws a `RangeError`; this is the `none` case. -/
def scheduleNext (today now : Nat) (t : Term) (rating : Rating) : Option Term :=
  let bucket : Nat := nextBucket t.bucket rating
  match LEITNER_INTERVALS[bucket]? with
  | none => none
  | some interval =>
      some { t with
              bucket := bucket
              due := today + interval
              history := t.history ++ [⟨now, rating⟩] }

/-- The bucket-transition table of spec §4.1, written as the claims state it
(`clamp(x, lo, hi) = min hi (max lo x)`). -/
def specBucket (b : Nat) : Rating → Nat
  | .again => max 1 (b - 1)
  | .hard => max 1 b
  | .good => min 5 (max 1 (b + 1))
  | .easy => min 5 (max 2 (b + 2))

theorem nextBucket_eq_specBucket (b : Nat) (r : Rating) :
    nextBucket b r = specBucket b r := by
  cases r <;> simp [nextBucket, specBucket]

theorem interval_lookup (b : Nat) (hb : b ≤ 5) :
    LEITNER_INTERVALS[b]? = some (LEITNER_INTERVALS.getD b 0) := by
  interval_cases b <;> rfl

theorem scheduleNext_eq_some (today now : Nat) (t : Term) (r : Rating)
    (h : nextBucket t.bucket r ≤ 5) :
    scheduleNext today now t r =
      some { t with
              bucket := nextBucket t.bucket r
              due := today + LEITNER_INTERVALS.getD (nextBucket t.bucket r) 0
              history := t.history ++ [⟨now, r⟩] } := by
  simp only [scheduleNext]
  rw [interval_lookup _ h]

theorem nextBucket_le (b : Nat) (r : Rating) (hb : b ≤ 5) : nextBucket b r ≤ 5 := by
  rw [nextBucket_eq_specBucket]
  cases r <;> simp only [specBucket] <;> omega

theorem nextBucket_pos (b : Nat) (r : Rating) : 1 ≤ nextBucket b r := by
  rw [nextBucket_eq_specBucket]
  cases r <;> simp only [specBucket] <;> omega

/-- Inversion: everything a successful `scheduleNext` call determines about
its result. -/
theorem scheduleNext_inv (today now : Nat) (t : Term) (r : Rating) (t' : Term)
    (h : scheduleNext today now t r = some t') :
    t'.bucket = nextBucket t.bucket r ∧
    LEITNER_INTERVALS[t'.bucket]? = some (t'.due - today) ∧
    t'.due = today + LEITNER_INTERVALS.getD t'.bucket 0 ∧
    t'.history = t.history ++ [⟨now, r⟩] ∧
    t'.id = t.id ∧ t'.term = t.term ∧ t'.definition = t.definition ∧
    t'.tags = t.tags ∧ t'.source = t.source := by
  simp only [scheduleNext] at h
  rcases hl : LEITNER_INTERVALS[nextBucket t.bucket r]? with _ | i
  · rw [hl] at h
    cases h
  · rw [hl] at h
    injection h with h
    subst h
    refine ⟨rfl, ?_, ?_, rfl, rfl, rfl, rfl, rfl, rfl⟩
    · simpa using hl
    · simp [List.getD_eq_getElem?_getD, hl]

/-- A template card with a given bucket, used to instantiate witnesses. -/
def cardB (b : Nat) : Term :=
  { id := [], term := [], definition := [], tags := [], source := none,
    bucket := b, due := 0, history := [] }

/-- Claim C1: for every card with bucket `B` in `{1..5}` and every rating,
`scheduleNext` returns a card whose bucket follows the transition table:
`again ↦ max(1, B-1)`, `hard ↦ max(1, B)`, `good ↦ clamp(B+1, 1, 5)`,
`easy ↦ clamp(B+2, 2, 5)` (the table is `specBucket`). -/
theorem scheduleNext_bucket_table (today now : Nat) (t : Term) (r : Rating)
    (h1 : 1 ≤ t.bucket) (h5 : t.bucket ≤ 5) :
    ∃ t', scheduleNext today now t r = some t' ∧
      t'.bucket = specBucket t.bucket r := by
  refine ⟨_, scheduleNext_eq_some today now t r (nextBucket_le _ _ h5), ?_⟩
  simp [nextBucket_eq_specBucket]

theorem scheduleNext_bucket_table_witness :
    1 ≤ (cardB 3).bucket ∧ (cardB 3).bucket ≤ 5 ∧
    ∃ t', scheduleNext 0 0 (cardB 3) .good = some t' ∧
      t'.bucket = specBucket (cardB 3).bucket .good :=
  ⟨by decide, by decide,
    scheduleNext_bucket_table 0 0 (cardB 3) .good (by decide) (by decide)⟩

/-- Claim C2: the due date of the returned card is today plus the interval
looked up in `LEITNER_INTERVALS` at the new bucket; in particular from
bucket 3 rating `good` gives bucket 4 and due `today+14`, and from bucket 1
rating `easy` gives bucket 3 and due `today+7`. -/
theorem scheduleNext_due_intervals (today now : Nat) (t : Term) (r : Rating)
    (t' : Term) (h : scheduleNext today now t r = some t') :
    (LEITNER_INTERVALS[t'.bucket]? = some (t'.due - today) ∧
      t'.due = today + LEITNER_INTERVALS.getD t'.bucket 0) ∧
    (t.bucket = 3 → r = .good → t'.bucket = 4 ∧ t'.due = today + 14) ∧
    (t.bucket = 1 → r = .easy → t'.bucket = 3 ∧ t'.due = today + 7) := by
  obtain ⟨hb, hl, hd, -⟩ := scheduleNext_inv today now t r t' h
  refine ⟨⟨hl, hd⟩, ?_, ?_⟩
  · rintro h3 rfl
    rw [h3] at hb
    have hb4 : t'.bucket = 4 := by rw [hb]; decide
    refine ⟨hb4, ?_⟩
    rw [hd, hb4]
    rfl
  · rintro h1 rfl
    rw [h1] at hb
    have hb3 : t'.bucket = 3 := by rw [hb]; decide
    refine ⟨hb3, ?_⟩
    rw [hd, hb3]
    rfl

/-- The card produced by rating the bucket-3 template `good` on day 0. -/
def card34 : Term :=
  { id := [], term := [], definition := [], tags := [], source := none,
    bucket := 4, due := 14, history := [⟨0, .good⟩] }

theorem scheduleNext_due_intervals_witness :
    (LEITNER_INTERVALS[card34.bucket]? = some (card34.due - 0) ∧
      card34.due = 0 + LEITNER_INTERVALS.getD card34.bucket 0) ∧
    ((cardB 3).bucket = 3 → Rating.good = Rating.good →
      card34.bucket = 4 ∧ card34.due = 0 + 14) ∧
    ((cardB 3).bucket = 1 → Rating.good = Rating.easy →
      card34.bucket = 3 ∧ card34.due = 0 + 7) :=
  scheduleNext_due_intervals 0 0 (cardB 3) .good card34 (by decide)

/-- Claim C5: the history of the card returned by `scheduleNext` is exactly
the input history with one `{timestamp, rating}` entry appended: length grows
by one and every prior entry is unchanged in its original position. -/
theorem scheduleNext_history_append (today now : Nat) (t : Term) (r : Rating)
    (t' : Term) (h : scheduleNext today now t r = some t') :
    t'.history = t.history ++ [⟨now, r⟩] ∧
    t'.history.length = t.history.length + 1 ∧
    ∀ i, i < t.history.length → t'.history[i]? = t.history[i]? := by
  obtain ⟨-, -, -, hh, -⟩ := scheduleNext_inv today now t r t' h
  refine ⟨hh, by simp [hh], fun i hi => ?_⟩
  rw [hh, List.getElem?_append_left hi]

theorem scheduleNext_history_append_witness :
    card34.history = (cardB 3).history ++ [⟨0, .good⟩] ∧
    card34.history.length = (cardB 3).history.length + 1 ∧
    ∀ i, i < (cardB 3).history.length →
      card34.history[i]? = (cardB 3).history[i]? :=
  scheduleNext_history_append 0 0 (cardB 3) .good card34 (by decide)

/-- Claim C8 counterexample: the claim quantifies over every card with
`bucket ≥ 0`, but at bucket 6 with rating `hard` the new bucket is 6, the
interval lookup `LEITNER_INTERVALS[6]` is out of range (`undefined`), and the
due-date computation throws — embedded as `none`. -/
theorem scheduleNext_bucket_six_throws :
    scheduleNext 0 0 (cardB 6) .hard = none := by decide

/-- Claim C8 (amended to buckets within the data-model range `{0..5}`): for
every card with `bucket ≤ 5` and every rating in the closed enumeration,
`scheduleNext` completes without error — the interval-table lookup at the new
bucket is in range, so a card is returned. -/
theorem scheduleNext_no_error (today now : Nat) (t : Term) (r : Rating)
    (h : t.bucket ≤ 5) :
    ∃ t', scheduleNext today now t r = some t' ∧
      nextBucket t.bucket r < LEITNER_INTERVALS.length := by
  refine ⟨_, scheduleNext_eq_some today now t r (nextBucket_le _ _ h), ?_⟩
  have := nextBucket_le t.bucket r h
  simp only [LEITNER_INTERVALS, List.length_cons, List.length_nil]
  omega

theorem scheduleNext_no_error_witness :
    ∃ t', scheduleNext 0 0 (cardB 5) .easy = some t' ∧
      nextBucket (cardB 5).bucket .easy < LEITNER_INTERVALS.length :=
  scheduleNext_no_error 0 0 (cardB 5) .easy (by decide)

/-! ## Queue selection -/

/-- The review filter of App.tsx line 94:
`all.filter(t => t.bucket > 0 && t.due <= todayISO())`. -/
def reviewFilter (today : Nat) (all : List Term) : List Term :=
  all.filter fun t => decide (0 < t.bucket) && decide (t.due ≤ today)

/-- `dueToday` (App.tsx line 94): the review filter sorted ascending by due
date.  ECMAScript `Array.prototype.sort` is required to be stable, and
`a.due.localeCompare(b.due)` on fixed-width ISO dates orders them
chronologically; the embedding is the stable `List.mergeSort` under `≤` on
the day numbers. -/
def dueToday (today : Nat) (all : List Term) : List Term :=
  (reviewFilter today all).mergeSort fun a b => decide (a.due ≤ b.due)

/-- `newCards` (App.tsx line 95): `all.filter(t => t.bucket === 0)`. -/
def newCards (all : List Term) : List Term :=
  all.filter fun t => t.bucket == 0

/-- The `queue` memo (App.tsx lines 103-107): review mode takes the first
`limit` due cards, learn mode the first `limit` new cards, browse mode none
(`limit` is the `sessionSize`; `.slice(0, n)` is `List.take n`). -/
def selectQueue (today : Nat) (all : List Term) (mode : Mode) (limit : Nat) :
    List Term :=
  match mode with
  | .review => (dueToday today all).take limit
  | .learn => (newCards all).take limit
  | .browse => []

theorem dueLe_trans (a b c : Term) :
    decide (a.due ≤ b.due) → decide (b.due ≤ c.due) → decide (a.due ≤ c.due) := by
  simp only [decide_eq_true_eq]
  omega

theorem dueLe_total (a b : Term) :
    (decide (a.due ≤ b.due) || decide (b.due ≤ a.due)) = true := by
  simp only [Bool.or_eq_true, decide_eq_true_eq]
  omega

/-- Claim C3: the review queue is exactly the cards with positive bucket due
by today, sorted non-decreasing by due date, stably (ties keep original set
order), truncated to `limit`: every queued card has `0 < bucket` and
`due ≤ today`; the queue is sorted and is a prefix of the full sorted
sequence `dueToday`, whose elements are a permutation of the filter; its
length is `min limit` the filter's size; and any two filtered cards with
equal due dates keep their relative order. -/
theorem selectQueue_review_spec (today limit : Nat) (all : List Term) :
    (∀ c ∈ selectQueue today all .review limit, 0 < c.bucket ∧ c.due ≤ today) ∧
    (selectQueue today all .review limit).Pairwise (fun a b => a.due ≤ b.due) ∧
    (selectQueue today all .review limit).length =
      min limit (reviewFilter today all).length ∧
    List.IsPrefix (selectQueue today all .review limit) (dueToday today all) ∧
    List.Perm (dueToday today all) (reviewFilter today all) ∧
    (∀ a b : Term, List.Sublist [a, b] (reviewFilter today all) → a.due = b.due →
      List.Sublist [a, b] (dueToday today all)) := by
  refine ⟨?_, ?_, ?_, ?_, ?_, ?_⟩
  · intro c hc
    have hm : c ∈ dueToday today all := List.mem_of_mem_take hc
    rw [dueToday, List.mem_mergeSort] at hm
    have := (List.mem_filter.mp hm).2
    simpa using this
  · have hs : (dueToday today all).Pairwise
        (fun a b => decide (a.due ≤ b.due) = true) :=
      List.sorted_mergeSort dueLe_trans dueLe_total (reviewFilter today all)
    have := hs.sublist (List.take_sublist limit (dueToday today all))
    exact this.imp (by simp)
  · simp [selectQueue, dueToday, List.length_take]
  · exact List.take_prefix limit (dueToday today all)
  · exact List.mergeSort_perm (reviewFilter today all) _
  · intro a b hsub heq
    exact List.pair_sublist_mergeSort dueLe_trans dueLe_total
      (by simp [heq]) hsub

/-- A bucket-1 card due on day 5. -/
def cardA : Term :=
  { id := "a".toList, term := [], definition := [], tags := [], source := none,
    bucket := 1, due := 5, history := [⟨0, .good⟩] }

/-- A bucket-2 card due on day 5 (ties with `cardA` on due date). -/
def cardC : Term :=
  { id := "c".toList, term := [], definition := [], tags := [], source := none,
    bucket := 2, due := 5, history := [⟨0, .hard⟩] }

theorem selectQueue_review_spec_witness :
    List.Sublist [cardA, cardC] (dueToday 10 [cardA, cardC]) :=
  (selectQueue_review_spec 10 5 [cardA, cardC]).2.2.2.2.2 cardA cardC
    (by decide) (by decide)

/-- Claim C4: the learn queue is exactly the bucket-0 cards in original set
order truncated to `limit`: every queued card has bucket 0, the queue's
length never exceeds `limit`, it is a prefix of the filtered `newCards` and a
sublist (order-preserving subsequence) of the full set, and when `limit`
covers the filter it is the whole filter. -/
theorem selectQueue_learn_spec (today limit : Nat) (all : List Term) :
    (∀ c ∈ selectQueue today all .learn limit, c.bucket = 0) ∧
    (selectQueue today all .learn limit).length ≤ limit ∧
    List.IsPrefix (selectQueue today all .learn limit) (newCards all) ∧
    List.Sublist (selectQueue today all .learn limit) all ∧
    ((newCards all).length ≤ limit →
      selectQueue today all .learn limit = newCards all) := by
  refine ⟨?_, ?_, ?_, ?_, ?_⟩
  · intro c hc
    have hm : c ∈ newCards all := List.mem_of_mem_take hc
    have := (List.mem_filter.mp hm).2
    simpa using this
  · simp [selectQueue, List.length_take]
  · exact List.take_prefix limit (newCards all)
  · exact (List.take_sublist limit (newCards all)).trans
      (List.filter_sublist all)
  · intro hlen
    exact List.take_of_length_le hlen

theorem selectQueue_learn_spec_witness :
    selectQueue 0 [cardB 0] .learn 3 = newCards [cardB 0] :=
  (selectQueue_learn_spec 0 3 [cardB 0]).2.2.2.2 (by decide)

/-! ## Text processing: `String.prototype.trim` and `String.prototype.split` -/

/-- JavaScript `String.prototype.trim`: drop whitespace from both ends. -/
def trim (s : Str) : Str :=
  ((s.dropWhile Char.isWhitespace).reverse.dropWhile Char.isWhitespace).reverse

/-- JavaScript `String.prototype.split` on a single-character-matching
pattern: `"a;b".split(p) = ["a","b"]`, `";;".split(p) = ["","",""]`,
`"".split(p) = [""]`.  The result is always non-empty. -/
def splitP (p : Char → Bool) : Str → List Str
  | [] => [[]]
  | c :: cs =>
    if p c then [] :: splitP p cs
    else
      match splitP p cs with
      | [] => [[c]]
      | r :: rs => (c :: r) :: rs

/-- `csv.split(/\r?\n/)` (App.tsx line 126).  Splitting at `'\n'` only is
equivalent modulo the subsequent `trim`, which removes a `'\r'` left at the
end of a line. -/
def splitLines (s : Str) : List Str := splitP (fun c => c == '\n') s

/-- `r.split(/;|\t/)` (App.tsx line 128). -/
def splitFields (s : Str) : List Str := splitP (fun c => c == ';' || c == '\t') s

/-! ## Import, export, and the other mutations of the card set -/

/-- One row of `importCSV` (App.tsx lines 128-129): destructure the first
three `;`/tab-separated fields (`undefined`, i.e. a missing field, and the
empty string both map through `(x || '')` to `''`), trim term and
definition, split a truthy tags field at `','` trimming each piece, and
build a fresh bucket-0 card. -/
def parseRow (id : Str) (today : Nat) (r : Str) : Term :=
  let fs := splitFields r
  { id := id
    term := trim (fs.getD 0 [])
    definition := trim (fs.getD 1 [])
    tags :=
      match fs[2]? with
      | none => []
      | some ts =>
          if ts.isEmpty then [] else (splitP (fun c => c == ',') ts).map trim
    source := none
    bucket := 0
    due := today
    history := [] }

/-- `importCSV` (App.tsx lines 125-133): split into lines, trim each, drop
empty rows (`filter(Boolean)`), parse every remaining row; when nothing
parses the handler only shows an alert and returns (`none`), otherwise the
parsed cards replace the set (`some`). -/
def importCSV (ids : Nat → Str) (today : Nat) (csv : Str) : Option (List Term) :=
  let rows := ((splitLines csv).map trim).filter (fun r => !r.isEmpty)
  let parsed := rows.enum.map fun p => parseRow (ids p.1) today p.2
  if parsed.isEmpty then none else some parsed

/-- The effect of the import handler on the card set: `setAll(parsed)` on
success, unchanged on the alert path. -/
def importApply (ids : Nat → Str) (today : Nat) (all : List Term) (csv : Str) :
    List Term :=
  match importCSV ids today csv with
  | none => all
  | some parsed => parsed

/-- The call-site coercion in `rate` (App.tsx line 113):
`{ ...t, bucket: t.bucket || 1 }` — bucket `0` is falsy and becomes `1`. -/
def bumpFirst (t : Term) : Term :=
  { t with bucket := if t.bucket = 0 then 1 else t.bucket }

/-- JavaScript `Array.prototype.map` with a callback that can throw:
the first exception aborts the whole map. -/
def mapOrFail (f : Term → Option Term) : List Term → Option (List Term)
  | [] => some []
  | t :: ts =>
    match f t, mapOrFail f ts with
    | some u, some us => some (u :: us)
    | _, _ => none

/-- `rate` (App.tsx lines 111-116): map over the set, replacing every card
whose id is the current card's id by `scheduleNext` of its bucket-bumped
copy. -/
def rate (today now : Nat) (cid : Str) (r : Rating) (all : List Term) :
    Option (List Term) :=
  mapOrFail
    (fun t => if t.id = cid then scheduleNext today now (bumpFirst t) r else some t)
    all

/-- `addOne` (App.tsx lines 141-146): append a fresh bucket-0 card built
from the prompted term, definition and tags. -/
def addOne (id tm df : Str) (tags : List Str) (today : Nat) (all : List Term) :
    List Term :=
  all ++ [{ id := id, term := tm, definition := df, tags := tags,
            source := none, bucket := 0, due := today, history := [] }]

/-- `resetProgress` (App.tsx lines 118-123): every card back to bucket 0,
due today, empty history. -/
def resetProgress (today : Nat) (all : List Term) : List Term :=
  all.map fun t => { t with bucket := 0, due := today, history := [] }

/-- Deletion (App.tsx line 283): `prev.filter(x => x.id !== t.id)`. -/
def deleteCard (all : List Term) (cid : Str) : List Term :=
  all.filter fun t => !(t.id == cid)

/-- The data-model invariant of spec §3: bucket in `{0,…,5}`, and bucket 0
exactly when the card has never been rated. -/
def Invariant (t : Term) : Prop :=
  t.bucket ≤ 5 ∧ (t.bucket = 0 ↔ t.history = [])

instance (t : Term) : Decidable (Invariant t) := by
  unfold Invariant
  infer_instance

theorem scheduleNext_bump_invariant (today now : Nat) (t : Term) (r : Rating)
    (h : Invariant t) :
    ∃ u, scheduleNext today now (bumpFirst t) r = some u ∧ Invariant u := by
  have hb : (bumpFirst t).bucket ≤ 5 := by
    simp only [bumpFirst]
    split
    · omega
    · exact h.1
  refine ⟨_, scheduleNext_eq_some today now _ r (nextBucket_le _ _ hb), ?_, ?_⟩
  · exact nextBucket_le _ _ hb
  · have hp := nextBucket_pos (bumpFirst t).bucket r
    simp only []
    constructor
    · intro hz
      omega
    · intro hnil
      exact absurd hnil (by simp)

theorem mapOrFail_some {f : Term → Option Term} {P : Term → Prop} :
    ∀ l : List Term, (∀ t ∈ l, ∃ u, f t = some u ∧ P u) →
      ∃ l', mapOrFail f l = some l' ∧ ∀ u ∈ l', P u
  | [], _ => ⟨[], rfl, by simp⟩
  | t :: ts, h => by
    obtain ⟨u, hu, hPu⟩ := h t (List.mem_cons_self t ts)
    obtain ⟨l', hl', hP⟩ := mapOrFail_some ts fun x hx => h x (List.mem_cons_of_mem t hx)
    exact ⟨u :: l', by simp [mapOrFail, hu, hl'],
      List.forall_mem_cons.mpr ⟨hPu, hP⟩⟩

/-- Claim C6: every mutation of the card set — rating through the
application's `rate` path (which bumps bucket 0 to 1 before invoking the
scheduler), adding, importing, resetting, and deleting — preserves the
data-model invariant `bucket ∈ {0..5} ∧ (bucket = 0 ↔ history empty)`. -/
theorem mutations_preserve_invariant (today now : Nat) (cid newId tm df : Str)
    (tags : List Str) (ids : Nat → Str) (csv : Str) (r : Rating)
    (all : List Term) (h : ∀ t ∈ all, Invariant t) :
    (∃ l, rate today now cid r all = some l ∧ ∀ t ∈ l, Invariant t) ∧
    (∀ t ∈ addOne newId tm df tags today all, Invariant t) ∧
    (∀ t ∈ importApply ids today all csv, Invariant t) ∧
    (∀ t ∈ resetProgress today all, Invariant t) ∧
    (∀ t ∈ deleteCard all cid, Invariant t) := by
  refine ⟨?_, ?_, ?_, ?_, ?_⟩
  · refine mapOrFail_some all fun t ht => ?_
    by_cases hid : t.id = cid
    · simp only [hid, if_pos rfl]
      exact scheduleNext_bump_invariant today now t r (h t ht)
    · exact ⟨t, by simp [hid], h t ht⟩
  · intro t ht
    rcases List.mem_append.mp ht with hm | hm
    · exact h t hm
    · rcases List.mem_singleton.mp hm with rfl
      exact ⟨by simp, by simp⟩
  · intro t ht
    simp only [importApply] at ht
    rcases hc : importCSV ids today csv with _ | parsed
    · rw [hc] at ht
      exact h t ht
    · rw [hc] at ht
      simp only [importCSV] at hc
      split at hc
      · cases hc
      · injection hc with hc
        rw [← hc] at ht
        rcases List.mem_map.mp ht with ⟨p, -, rfl⟩
        exact ⟨by simp [parseRow], by simp [parseRow]⟩
  · intro t ht
    rcases List.mem_map.mp ht with ⟨x, -, rfl⟩
    exact ⟨by simp, by simp⟩
  · intro t ht
    exact h t (List.mem_of_mem_filter ht)

theorem mutations_preserve_invariant_witness :
    (∃ l, rate 0 0 ("a".toList) .good [cardA] = some l ∧ ∀ t ∈ l, Invariant t) ∧
    (∀ t ∈ addOne ("n".toList) ("t".toList) ("d".toList) [] 0 [cardA],
      Invariant t) ∧
    (∀ t ∈ importApply (fun _ => "u".toList) 0 [cardA] ("x;y".toList),
      Invariant t) ∧
    (∀ t ∈ resetProgress 0 [cardA], Invariant t) ∧
    (∀ t ∈ deleteCard [cardA] ("a".toList), Invariant t) :=
  mutations_preserve_invariant 0 0 ("a".toList) ("n".toList) ("t".toList)
    ("d".toList) [] (fun _ => "u".toList) ("x;y".toList) .good [cardA]
    (by decide)

/-! ## Persistence: the seed set and `load` -/

/-- Shape of every seed entry (App.tsx lines 44-53): fresh id, one tag,
bucket 0, due today, empty history. -/
def seedCard (id tm df tag : Str) (today : Nat) : Term :=
  { id := id, term := tm, definition := df, tags := [tag], source := none,
    bucket := 0, due := today, history := [] }

/-- `SEED` (App.tsx lines 43-54), parameterised by the `uid()` supply and
today's date. -/
def SEED (ids : Nat → Str) (today : Nat) : List Term :=
  [ seedCard (ids 0) "Организационная структура".toList
      "Совокупность подразделений и связей между ними, определяющих распределение функций, ответственности и полномочий в компании.".toList
      "управление".toList today,
    seedCard (ids 1) "Затраты фиксированные".toList
      "Издержки, величина которых не зависит от объёма выпуска в краткосрочном периоде (аренда, амортизация).".toList
      "издержки".toList today,
    seedCard (ids 2) "Затраты переменные".toList
      "Издержки, изменяющиеся пропорционально объёму выпуска (сырьё, сдельная оплата труда).".toList
      "издержки".toList today,
    seedCard (ids 3) "Точка безубыточности".toList
      "Объём продаж, при котором прибыль равна нулю и выручка покрывает все издержки.".toList
      "финансы".toList today,
    seedCard (ids 4) "Маржинальный доход".toList
      "Разница между выручкой и переменными затратами; используется для анализа ассортимента и ценообразования.".toList
      "финансы".toList today,
    seedCard (ids 5) "Аутсорсинг".toList
      "Передача вспомогательных или непрофильных функций внешним исполнителям для повышения эффективности.".toList
      "организация".toList today,
    seedCard (ids 6) "BSC (Сбалансированная система показателей)".toList
      "Методика стратегического управления, переводящая стратегию в систему целей и KPI по четырём перспективам.".toList
      "стратегия".toList today,
    seedCard (ids 7) "KPI".toList
      "Ключевые показатели эффективности, отражающие степень достижения целей.".toList
      "оценка".toList today,
    seedCard (ids 8) "Бизнес-процесс".toList
      "Повторяемая последовательность действий, создающая ценность для внутреннего или внешнего клиента.".toList
      "процессы".toList today,
    seedCard (ids 9) "Реинжиниринг процессов".toList
      "Фундаментальное переосмысление и радикальное перепроектирование процессов для достижения резких улучшений.".toList
      "процессы".toList today ]

/-- `load` (App.tsx lines 56-60): missing key → seed; `JSON.parse` throwing
(`parse s = none`) → seed; an empty parsed array (`parsed.length` falsy) →
seed; otherwise the parsed collection. -/
def load (ids : Nat → Str) (today : Nat) (parse : Str → Option (List Term))
    (raw : Option Str) : List Term :=
  match raw with
  | none => SEED ids today
  | some s =>
    match parse s with
    | none => SEED ids today
    | some parsed => if parsed.isEmpty then SEED ids today else parsed

/-- Claim C9: `load` returns the parsed collection exactly when the raw
string is present and parses as a non-empty card array; a missing key, a
parse failure, or an empty array all silently fall back to the seed set. -/
theorem load_parse_or_seed (ids : Nat → Str) (today : Nat)
    (parse : Str → Option (List Term)) (raw : Option Str) :
    (∀ s l, raw = some s → parse s = some l → l ≠ [] →
      load ids today parse raw = l) ∧
    (raw = none → load ids today parse raw = SEED ids today) ∧
    (∀ s, raw = some s → parse s = none →
      load ids today parse raw = SEED ids today) ∧
    (∀ s, raw = some s → parse s = some [] →
      load ids today parse raw = SEED ids today) := by
  refine ⟨?_, ?_, ?_, ?_⟩
  · rintro s l rfl hp hne
    simp [load, hp, List.isEmpty_iff, hne]
  · rintro rfl
    rfl
  · rintro s rfl hp
    simp [load, hp]
  · rintro s rfl hp
    simp [load, hp]

theorem load_parse_or_seed_witness :
    load (fun _ => []) 0 (fun _ => some [cardA]) (some ("raw".toList)) =
      [cardA] :=
  (load_parse_or_seed (fun _ => []) 0 (fun _ => some [cardA])
      (some ("raw".toList))).1 ("raw".toList) [cardA] rfl rfl (by decide)

/-! ## Blank import leaves the set unchanged -/

theorem trim_eq_nil_of_ws (s : Str) (h : ∀ c ∈ s, c.isWhitespace) :
    trim s = [] := by
  unfold trim
  have hd : s.dropWhile Char.isWhitespace = [] :=
    List.dropWhile_eq_nil_iff.mpr fun x hx => h x hx
  rw [hd]
  rfl

/-- Claim C10: when every line of the import text is empty or
whitespace-only, no row parses and the import leaves the existing card set
unchanged. -/
theorem importApply_blank_unchanged (ids : Nat → Str) (today : Nat)
    (all : List Term) (csv : Str)
    (h : ∀ r ∈ splitLines csv, ∀ c ∈ r, c.isWhitespace) :
    importApply ids today all csv = all := by
  have hrows : ((splitLines csv).map trim).filter (fun r => !r.isEmpty) = [] := by
    rw [List.filter_eq_nil_iff]
    intro a ha
    rcases List.mem_map.mp ha with ⟨r, hr, rfl⟩
    simp [trim_eq_nil_of_ws r (h r hr)]
  simp [importApply, importCSV, hrows]

theorem importApply_blank_unchanged_witness :
    importApply (fun _ => []) 0 [cardA] ("  \n \t \n".toList) = [cardA] :=
  importApply_blank_unchanged (fun _ => []) 0 [cardA] ("  \n \t \n".toList)
    (by decide)

/-! ## Export: `JSON.stringify(all, null, 2)` -/

/-- `Array.prototype.join`-style concatenation with a separator. -/
def joinSep (sep : Str) : List Str → Str
  | [] => []
  | [x] => x
  | x :: xs => x ++ sep ++ joinSep sep xs

/-- An indentation of `n` spaces. -/
def sp (n : Nat) : Str := List.replicate n ' '

/-- The JSON string escaper of `JSON.stringify` (the characters that can
occur in this data model's fields). -/
def jsonEscape (s : Str) : Str :=
  s.flatMap fun c =>
    if c = '"' then ['\\', '"']
    else if c = '\\' then ['\\', '\\']
    else if c = '\n' then ['\\', 'n']
    else if c = '\r' then ['\\', 'r']
    else if c = '\t' then ['\\', 't']
    else [c]

/-- A JSON string literal. -/
def jsonStr (s : Str) : Str := '"' :: (jsonEscape s ++ ['"'])

/-- A JSON number literal (the embedded day numbers and timestamps). -/
def jsonNat (n : Nat) : Str := (Nat.repr n).toList

/-- The serialized rating enumeration values. -/
def ratingStr : Rating → Str
  | .again => "again".toList
  | .hard => "hard".toList
  | .good => "good".toList
  | .easy => "easy".toList

/-- A JSON array of strings with `gap = 2` pretty-printing: elements
indented by `n`, closing bracket by `n - 2`; `[]` when empty. -/
def jsonStrArr (n : Nat) (l : List Str) : Str :=
  match l with
  | [] => "[]".toList
  | _ =>
      '[' :: '\n' ::
        (joinSep (',' :: '\n' :: []) (l.map fun s => sp n ++ jsonStr s) ++
          '\n' :: (sp (n - 2) ++ [']']))

/-- The history array with `gap = 2` pretty-printing: entry objects
indented by `n`, their fields by `n + 2`. -/
def jsonHist (n : Nat) (l : List HistEntry) : Str :=
  match l with
  | [] => "[]".toList
  | _ =>
      '[' :: '\n' ::
        (joinSep (',' :: '\n' :: []) (l.map fun e =>
          sp n ++ '{' :: '\n' ::
            (sp (n + 2) ++ ('"' :: 'd' :: '"' :: ':' :: ' ' :: []) ++
              jsonNat e.d ++ ',' :: '\n' ::
              (sp (n + 2) ++ ('"' :: "rating".toList ++ '"' :: ':' :: ' ' :: []) ++
                jsonStr (ratingStr e.rating) ++ '\n' ::
                (sp n ++ ['}'])))) ++
          '\n' :: (sp (n - 2) ++ [']']))

/-- A serialized key prefix `"key": ` at indentation 4. -/
def jsonKey (k : Str) : Str := sp 4 ++ '"' :: (k ++ '"' :: ':' :: ' ' :: [])

/-- One card as a pretty-printed JSON object at array depth 1: the object
literal of App.tsx lines 44/129/145 fixes the key order `id, term,
definition, tags, (source,) bucket, due, history`; `source` is omitted when
absent, as `JSON.stringify` omits `undefined` properties. -/
def jsonTerm (t : Term) : Str :=
  sp 2 ++ '{' :: '\n' ::
    (joinSep (',' :: '\n' :: [])
      ([ jsonKey ("id".toList) ++ jsonStr t.id,
         jsonKey ("term".toList) ++ jsonStr t.term,
         jsonKey ("definition".toList) ++ jsonStr t.definition,
         jsonKey ("tags".toList) ++ jsonStrArr 6 t.tags ] ++
       (match t.source with
        | none => []
        | some s => [jsonKey ("source".toList) ++ jsonStr s]) ++
       [ jsonKey ("bucket".toList) ++ jsonNat t.bucket,
         jsonKey ("due".toList) ++ jsonNat t.due,
         jsonKey ("history".toList) ++ jsonHist 6 t.history ]) ++
      '\n' :: (sp 2 ++ ['}']))

/-- `exportJSON` (App.tsx lines 135-139): the downloaded blob's text,
`JSON.stringify(all, null, 2)`. -/
def exportJSON (all : List Term) : Str :=
  match all with
  | [] => ('[' :: ']' :: [])
  | _ => '[' :: '\n' :: (joinSep (',' :: '\n' :: []) (all.map jsonTerm) ++ '\n' :: [']'])

/-- The fields the round-trip claim compares (everything except the
regenerated random `id`). -/
structure CardContent where
  term : Str
  definition : Str
  tags : List Str
  bucket : Nat
  due : Nat
  history : List HistEntry
deriving DecidableEq, Repr

/-- Projection of a card to the compared fields. -/
def contentAll (t : Term) : CardContent :=
  ⟨t.term, t.definition, t.tags, t.bucket, t.due, t.history⟩

/-- A minimal concrete card set for the round-trip counterexample. -/
def cardX : Term :=
  { id := "x".toList, term := "a".toList, definition := "b".toList,
    tags := [], source := none, bucket := 0, due := 0, history := [] }

/-- Claim C7 counterexample: exporting produces pretty-printed JSON, while
the importer parses the `term;definition;tags` CSV/TSV format, so importing
the collection's own export corrupts the fields: for the one-card set `[cardX]`
the JSON text splits into eleven lines, each parsed as a junk card (e.g.
term `"term": "a",`), so no surviving card keeps its fields. -/
theorem export_import_corrupts :
    (importApply (fun _ => "u".toList) 0 [cardX] (exportJSON [cardX])).map
        contentAll ≠
      [cardX].map contentAll := by decide

/-! ## The amended round trip, through the import's own format

Modelled from the spec (§6 import format): "each non-empty line = one card,
fields separated by `;` or tab: term, definition, comma-separated tags".
The serializer below writes that format; the repository has no such exporter
(its export is JSON), which is what the counterexample above exhibits. -/

/-- The comma-joined tags field of the import format. -/
def tagsField (tags : List Str) : Str := joinSep [','] tags

/-- One card in the import format: `term;definition;tag1,tag2,…`. -/
def lineOf (t : Term) : Str :=
  t.term ++ ';' :: (t.definition ++ ';' :: tagsField t.tags)

/-- A card set serialized in the import format, one line per card. -/
def toImportFormat (all : List Term) : Str :=
  joinSep ['\n'] (all.map lineOf)

/-- A field survives the splitting: it contains none of the separators. -/
def sepFree (s : Str) : Prop := ∀ c ∈ s, c ≠ ';' ∧ c ≠ '\t' ∧ c ≠ '\n'

instance (s : Str) : Decidable (sepFree s) := by
  unfold sepFree
  infer_instance

/-- The string is empty or starts with a non-whitespace character. -/
def noEdgeWs (s : Str) : Bool :=
  match s with
  | [] => true
  | c :: _ => !c.isWhitespace

/-- A term or definition that the import parses back unchanged: separator
free and with no leading or trailing whitespace (the import trims each
field). -/
def goodField (s : Str) : Prop :=
  sepFree s ∧ noEdgeWs s = true ∧ noEdgeWs s.reverse = true

instance (s : Str) : Decidable (goodField s) := by
  unfold goodField
  infer_instance

/-- A tag that survives: a good field, non-empty, comma free. -/
def goodTag (s : Str) : Prop := goodField s ∧ s ≠ [] ∧ ∀ c ∈ s, c ≠ ','

instance (s : Str) : Decidable (goodTag s) := by
  unfold goodTag
  infer_instance

/-- A card whose content fields survive the import format. -/
def goodCard (t : Term) : Prop :=
  goodField t.term ∧ goodField t.definition ∧ ∀ g ∈ t.tags, goodTag g

instance (t : Term) : Decidable (goodCard t) := by
  unfold goodCard
  infer_instance

theorem dropWhile_ws_eq_self (s : Str) (h : noEdgeWs s = true) :
    s.dropWhile Char.isWhitespace = s := by
  cases s with
  | nil => rfl
  | cons c cs =>
    simp only [noEdgeWs, Bool.not_eq_true'] at h
    simp [List.dropWhile_cons, h]

theorem trim_eq_self (s : Str) (h1 : noEdgeWs s = true)
    (h2 : noEdgeWs s.reverse = true) : trim s = s := by
  unfold trim
  rw [dropWhile_ws_eq_self s h1, dropWhile_ws_eq_self s.reverse h2,
    List.reverse_reverse]

theorem splitP_no_sep (p : Char → Bool) (s : Str)
    (h : ∀ c ∈ s, p c = false) : splitP p s = [s] := by
  induction s with
  | nil => rfl
  | cons c cs ih =>
    have hc : p c = false := h c (List.mem_cons_self c cs)
    have ih' := ih fun x hx => h x (List.mem_cons_of_mem _ hx)
    simp [splitP, hc, ih']

theorem splitP_append_sep (p : Char → Bool) (a b : Str) (c : Char)
    (hc : p c = true) (h : ∀ x ∈ a, p x = false) :
    splitP p (a ++ c :: b) = a :: splitP p b := by
  induction a with
  | nil => simp [splitP, hc]
  | cons x xs ih =>
    have hx : p x = false := h x (List.mem_cons_self x xs)
    have ih' := ih fun y hy => h y (List.mem_cons_of_mem _ hy)
    simp [splitP, hx, ih']

theorem splitP_joinSep (p : Char → Bool) (c : Char) (hc : p c = true) :
    ∀ ls : List Str, ls ≠ [] → (∀ l ∈ ls, ∀ x ∈ l, p x = false) →
      splitP p (joinSep [c] ls) = ls
  | [], hne, _ => absurd rfl hne
  | [l], _, h => by
    have : joinSep [c] [l] = l := rfl
    rw [this]
    exact splitP_no_sep p l (h l (List.mem_singleton_self l))
  | l :: l' :: ls, _, h => by
    have he : joinSep [c] (l :: l' :: ls) = l ++ c :: joinSep [c] (l' :: ls) := by
      simp [joinSep]
    rw [he, splitP_append_sep p l _ c hc (h l (List.mem_cons_self _ _)),
      splitP_joinSep p c hc (l' :: ls) (by simp)
        (fun x hx => h x (List.mem_cons_of_mem _ hx))]

theorem mem_joinSep (x : Char) (sep : Str) :
    ∀ ls : List Str, x ∈ joinSep sep ls → x ∈ sep ∨ ∃ l ∈ ls, x ∈ l
  | [], h => absurd h (by simp [joinSep])
  | [l], h => Or.inr ⟨l, List.mem_singleton_self l, by simpa [joinSep] using h⟩
  | l :: l' :: ls, h => by
    simp only [joinSep, List.append_assoc, List.mem_append] at h
    rcases h with h | h | h
    · exact Or.inr ⟨l, List.mem_cons_self _ _, h⟩
    · exact Or.inl h
    · rcases mem_joinSep x sep (l' :: ls) h with h | ⟨g, hg, hx⟩
      · exact Or.inl h
      · exact Or.inr ⟨g, List.mem_cons_of_mem _ hg, hx⟩

theorem noEdgeWs_append_sep (a b : Str) (c : Char)
    (hc : c.isWhitespace = false) (h : noEdgeWs a = true) :
    noEdgeWs (a ++ c :: b) = true := by
  cases a with
  | nil => simp [noEdgeWs, hc]
  | cons x xs => simpa [noEdgeWs] using h

theorem tagsField_rev_edge (tags : List Str) (h : ∀ g ∈ tags, goodTag g) :
    noEdgeWs (tagsField tags).reverse = true := by
  induction tags with
  | nil => rfl
  | cons g gs ih =>
    cases gs with
    | nil =>
      have := ((h g (List.mem_singleton_self g)).1).2.2
      simpa [tagsField, joinSep] using this
    | cons g' gs' =>
      have he : (tagsField (g :: g' :: gs')).reverse =
          (tagsField (g' :: gs')).reverse ++ ',' :: g.reverse := by
        simp [tagsField, joinSep, List.reverse_append]
      rw [he]
      exact noEdgeWs_append_sep _ _ ',' (by decide)
        (ih fun x hx => h x (List.mem_cons_of_mem _ hx))

theorem lineOf_edge_left (t : Term) (h : goodCard t) :
    noEdgeWs (lineOf t) = true := by
  unfold lineOf
  exact noEdgeWs_append_sep _ _ ';' (by decide) h.1.2.1

theorem lineOf_edge_right (t : Term) (h : goodCard t) :
    noEdgeWs (lineOf t).reverse = true := by
  have he : (lineOf t).reverse =
      (tagsField t.tags).reverse ++ ';' ::
        (t.definition.reverse ++ ';' :: t.term.reverse) := by
    simp [lineOf, List.reverse_append]
  rw [he]
  exact noEdgeWs_append_sep _ _ ';' (by decide)
    (tagsField_rev_edge t.tags h.2.2)

theorem mem_tagsField (x : Char) (tags : List Str)
    (h : ∀ g ∈ tags, goodTag g) (hx : x ∈ tagsField tags) :
    x = ',' ∨ ∃ g ∈ tags, x ∈ g := by
  rcases mem_joinSep x [','] tags hx with hm | hm
  · exact Or.inl (List.mem_singleton.mp hm)
  · exact Or.inr hm

theorem lineOf_no_nl (t : Term) (h : goodCard t) :
    ∀ x ∈ lineOf t, (x == '\n') = false := by
  intro x hx
  simp only [lineOf, List.mem_append, List.mem_cons] at hx
  have hne : x ≠ '\n' := by
    rcases hx with hm | rfl | hm | rfl | hm
    · exact (h.1.1 x hm).2.2
    · decide
    · exact (h.2.1.1 x hm).2.2
    · decide
    · rcases mem_tagsField x t.tags h.2.2 hm with rfl | ⟨g, hg, hxg⟩
      · decide
      · exact ((h.2.2 g hg).1.1 x hxg).2.2
  simpa using hne

theorem fieldSepFree_of_sepFree (s : Str) (h : sepFree s) :
    ∀ x ∈ s, ((x == ';') || (x == '\t')) = false := by
  intro x hx
  obtain ⟨h1, h2, -⟩ := h x hx
  simpa using ⟨h1, h2⟩

theorem tagsField_fieldSepFree (tags : List Str)
    (h : ∀ g ∈ tags, goodTag g) :
    ∀ x ∈ tagsField tags, ((x == ';') || (x == '\t')) = false := by
  intro x hx
  rcases mem_tagsField x tags h hx with rfl | ⟨g, hg, hxg⟩
  · decide
  · exact fieldSepFree_of_sepFree g ((h g hg).1.1) x hxg

theorem splitFields_lineOf (t : Term) (h : goodCard t) :
    splitFields (lineOf t) = [t.term, t.definition, tagsField t.tags] := by
  unfold splitFields lineOf
  rw [splitP_append_sep _ _ _ ';' (by decide)
      (fieldSepFree_of_sepFree t.term h.1.1),
    splitP_append_sep _ _ _ ';' (by decide)
      (fieldSepFree_of_sepFree t.definition h.2.1.1),
    splitP_no_sep _ _ (tagsField_fieldSepFree t.tags h.2.2)]

theorem tagsField_ne_nil (g : Str) (gs : List Str)
    (h : ∀ x ∈ g :: gs, goodTag x) : tagsField (g :: gs) ≠ [] := by
  cases gs with
  | nil =>
    have : tagsField [g] = g := rfl
    rw [this]
    exact (h g (List.mem_singleton_self g)).2.1
  | cons g' gs' =>
    have he : tagsField (g :: g' :: gs') = g ++ ',' :: tagsField (g' :: gs') := by
      simp [tagsField, joinSep]
    rw [he]
    simp

theorem splitTags_tagsField (tags : List Str) (hne : tags ≠ [])
    (h : ∀ g ∈ tags, goodTag g) :
    splitP (fun c => c == ',') (tagsField tags) = tags := by
  unfold tagsField
  refine splitP_joinSep _ ',' (by decide) tags hne fun g hg x hx => ?_
  simpa using (h g hg).2.2 x hx

theorem parseRow_lineOf (id : Str) (today : Nat) (t : Term)
    (h : goodCard t) :
    parseRow id today (lineOf t) =
      { id := id, term := t.term, definition := t.definition,
        tags := t.tags, source := none, bucket := 0, due := today,
        history := [] } := by
  simp only [parseRow, splitFields_lineOf t h]
  congr 1
  · exact trim_eq_self t.term h.1.2.1 h.1.2.2
  · exact trim_eq_self t.definition h.2.1.2.1 h.2.1.2.2
  · show (if (tagsField t.tags).isEmpty then []
        else (splitP (fun c => c == ',') (tagsField t.tags)).map trim) = t.tags
    cases htags : t.tags with
    | nil => rfl
    | cons g gs =>
      have h2 : ∀ x ∈ g :: gs, goodTag x := htags ▸ h.2.2
      have hne : tagsField (g :: gs) ≠ [] := tagsField_ne_nil g gs h2
      rw [if_neg (by simpa [List.isEmpty_iff] using hne)]
      rw [splitTags_tagsField (g :: gs) (by simp) h2]
      have := List.map_congr_left fun x hx =>
        trim_eq_self x ((h2 x hx).1.2.1) ((h2 x hx).1.2.2)
      rw [this]
      simp

theorem lineOf_ne_nil (t : Term) : lineOf t ≠ [] := by
  unfold lineOf
  simp

theorem enumFrom_parse_content (ids : Nat → Str) (today : Nat) :
    ∀ (n : Nat) (ts : List Term), (∀ t ∈ ts, goodCard t) →
      ((List.enumFrom n (ts.map lineOf)).map
          (fun p => parseRow (ids p.1) today p.2)).map contentAll =
        ts.map fun t => ⟨t.term, t.definition, t.tags, 0, today, []⟩
  | _, [], _ => rfl
  | n, t :: ts, h => by
    simp only [List.map_cons, List.enumFrom]
    rw [parseRow_lineOf (ids n) today t (h t (List.mem_cons_self _ _))]
    rw [enumFrom_parse_content ids today (n + 1) ts
      fun x hx => h x (List.mem_cons_of_mem _ hx)]
    rfl

/-- Claim C7 (amended): the repository's export is JSON while its import
parses the CSV/TSV import format, so export-then-import does not round-trip
(see the counterexample); the round trip that does hold goes through the
importer's own format: serializing a non-empty card set as
`term;definition;comma-separated-tags` lines and importing yields a set
whose every card has the same term, definition and tags, with bucket, due
and history reset to `0`, today and empty — provided each field is free of
the separator characters and of leading/trailing whitespace, and each tag is
non-empty and comma-free. -/
theorem importCSV_import_format_roundtrip (ids : Nat → Str) (today : Nat)
    (all : List Term) (hne : all ≠ []) (hg : ∀ t ∈ all, goodCard t) :
    ∃ l, importCSV ids today (toImportFormat all) = some l ∧
      l.map contentAll =
        all.map fun t => ⟨t.term, t.definition, t.tags, 0, today, []⟩ := by
  have hlines : splitLines (toImportFormat all) = all.map lineOf := by
    unfold splitLines toImportFormat
    refine splitP_joinSep _ '\n' (by decide) (all.map lineOf)
      (by simpa using hne) ?_
    intro l hl x hx
    rcases List.mem_map.mp hl with ⟨t, ht, rfl⟩
    exact lineOf_no_nl t (hg t ht) x hx
  have htrim : (all.map lineOf).map trim = all.map lineOf := by
    have hmap : ∀ l ∈ all.map lineOf, trim l = id l := by
      intro l hl
      rcases List.mem_map.mp hl with ⟨t, ht, rfl⟩
      exact trim_eq_self (lineOf t) (lineOf_edge_left t (hg t ht))
        (lineOf_edge_right t (hg t ht))
    rw [List.map_congr_left hmap, List.map_id]
  have hfilter : (all.map lineOf).filter (fun r => !r.isEmpty) =
      all.map lineOf := by
    rw [List.filter_eq_self]
    intro a ha
    rcases List.mem_map.mp ha with ⟨t, ht, rfl⟩
    simpa [List.isEmpty_iff] using lineOf_ne_nil t
  have hrows : ((splitLines (toImportFormat all)).map trim).filter
      (fun r => !r.isEmpty) = all.map lineOf := by
    rw [hlines, htrim, hfilter]
  have hpar : importCSV ids today (toImportFormat all) =
      some ((all.map lineOf).enum.map fun p => parseRow (ids p.1) today p.2) := by
    simp only [importCSV]
    rw [hrows, if_neg ?empty]
    case empty =>
      cases all with
      | nil => exact absurd rfl hne
      | cons t ts => simp [List.enum, List.enumFrom]
  refine ⟨_, hpar, ?_⟩
  exact enumFrom_parse_content ids today 0 all hg

/-- A concrete well-formed card for the amended round-trip witness. -/
def cardY : Term :=
  { id := "x".toList, term := "ab".toList, definition := "cd".toList,
    tags := ["t1".toList, "t2".toList], source := none, bucket := 4,
    due := 9, history := [⟨1, .easy⟩] }

theorem importCSV_import_format_roundtrip_witness :
    ∃ l, importCSV (fun _ => "u".toList) 7 (toImportFormat [cardY]) = some l ∧
      l.map contentAll =
        [cardY].map fun t =>
          ⟨t.term, t.definition, t.tags, 0, 7, []⟩ :=
  importCSV_import_format_roundtrip (fun _ => "u".toList) 7 [cardY]
    (by decide) (by decide)

end Glossary
